import Mathlib

/-!
Verification of the `rps` terminal-prompt layout engine.

This file shallowly embeds the Rust sources of the repository:

* `src/main.rs` — the adaptive layout engine (`get_size`, `amount_can_shrink`,
  `layout_segments`) together with its `TestSegment` used by the unit tests;
* `src/segments.rs` — the segment contract (`ShrinkPriority`, `PromptSegment`);
* `src/jobs.rs`, `src/status.rs`, `src/path.rs`, `src/git.rs` — the four
  concrete segment variants.

Conventions of the embedding:

* `usize` is modelled by `Nat`; Rust's `saturating_sub` is `Nat` subtraction.
* A trait object `Box<dyn PromptSegment>` is modelled by a structure of the
  two width functions the layout engine calls (`Segment` below); rendering is
  modelled per concrete variant.
* Widths are measured in grapheme clusters, exactly as the source does with
  `unicode_segmentation`; one `Char` in the embedding stands for one grapheme
  cluster.
* Rust's `Iterator::max_by_key` returns the LAST element among those with the
  maximal key; `lastMax` below models that selection and is proved to return
  the index of the last maximum.
* The Rust `while` loop of `layout_segments` has no a-priori termination
  bound, so it is embedded with explicit fuel; an execution that exhausts the
  fuel is `LoopOut.outOfFuel`, the `.unwrap()` panic on an empty layout is
  `LoopOut.panicked`.  Termination theorems show the fuel is irrelevant for
  well-behaved segments.
* The source snapshot spells the middle tier `ShrinkConfortable` in
  `segments.rs` (the defining module); the spec calls it `ShrinkComfortable`.
  The embedding follows the defining module.
-/

namespace Rps

/-- From src/segments.rs: the ordered three-valued shrink tier. -/
inductive ShrinkPriority where
  | Unconstrained
  | ShrinkConfortable
  | ShrinkBeyondMin
deriving DecidableEq

/-- From src/segments.rs: the `PromptSegment` trait as seen by the layout
engine — the two width queries the engine calls through dynamic dispatch. -/
structure Segment where
  get_base_width : ShrinkPriority → Nat
  get_actual_width_when_under : Nat → Nat

/-- From src/main.rs: `SegmentLayout` pairs a segment reference with its
current allocated width. -/
abbrev SegmentLayout := Segment × Nat

/-- From src/main.rs: `type Layout<'a> = Vec<SegmentLayout<'a>>`. -/
abbrev Layout := List SegmentLayout

/-- From src/main.rs: the line classification. -/
inductive Line where
  | SingleLine
  | SplitLine
  | OverflowLine
deriving DecidableEq

/-- From src/main.rs `get_size`: total prompt width = every current size plus
one separator, plus one more separator slot. -/
def get_size (layout : Layout) : Nat :=
  (layout.map (fun x => x.2 + 1)).sum + 1

/-- From src/main.rs `amount_can_shrink`: the slack of a segment at a tier,
with `saturating_sub` modelled by `Nat` subtraction. -/
def amount_can_shrink (segment_layout : SegmentLayout) (shrink_level : ShrinkPriority) : Nat :=
  segment_layout.2 - segment_layout.1.get_base_width shrink_level

/-- Model of Rust's `Iterator::max_by_key` over a list of keys: returns
`some (index, value)` of the LAST element with maximal value ("If several
elements are equally maximum, the last element is returned"), `none` on the
empty iterator (where `.unwrap()` would panic). -/
def lastMax : List Nat → Option (Nat × Nat)
  | [] => none
  | x :: xs =>
    some (match lastMax xs with
      | none => (0, x)
      | some (j, v) => if x ≤ v then (j + 1, v) else (0, x))

/-- Outcome of one tier's `while` loop in `layout_segments`.  `done` is a
normal exit (condition false, or `break` on zero slack); `panicked` is the
`.unwrap()` panic on an empty layout; `outOfFuel` marks an execution that did
not finish within the given fuel. -/
inductive LoopOut where
  | done (layout : Layout)
  | panicked
  | outOfFuel
deriving Inhabited

/-- One shrink step of the loop body of `layout_segments` (src/main.rs lines
88–94): the selected segment at `idx` is set to
`get_actual_width_when_under(current_size - min(amount_to_shrink, amount_can_shrink))`. -/
def shrunk (layout : Layout) (term_width idx : Nat) (sl : SegmentLayout)
    (tier : ShrinkPriority) : Layout :=
  layout.set idx
    (sl.1, sl.1.get_actual_width_when_under
      (sl.2 - min (get_size layout - term_width) (amount_can_shrink sl tier)))

/-- The inner `while prompt_width > term_width` loop of `layout_segments` at
one shrink tier, with explicit fuel.  Each iteration selects the segment of
maximal slack (`max_by_key`, last maximum on ties), breaks if its slack is
zero, otherwise shrinks it and recomputes the total width. -/
def shrinkLoop (tier : ShrinkPriority) (term_width : Nat) : Nat → Layout → LoopOut
  | 0, layout =>
    if get_size layout ≤ term_width then .done layout else .outOfFuel
  | fuel + 1, layout =>
    if get_size layout ≤ term_width then .done layout
    else
      match lastMax (layout.map (fun sl => amount_can_shrink sl tier)) with
      | none => .panicked
      | some (idx, _) =>
        match layout[idx]? with
        | none => .panicked
        | some sl =>
          if amount_can_shrink sl tier = 0 then .done layout
          else shrinkLoop tier term_width fuel (shrunk layout term_width idx sl tier)

/-- Initial layout of `layout_segments`: every segment at its
`get_base_width(Unconstrained)`. -/
def initLayout (segments : List Segment) : Layout :=
  segments.map (fun x => (x, x.get_base_width .Unconstrained))

/-- Result of `layout_segments` in the fuel model. -/
inductive LayoutResult where
  | ok (line : Line) (layout : Layout)
  | panicked
  | outOfFuel
deriving Inhabited

/-- From src/main.rs `layout_segments`: initialise at unconstrained widths;
return `SingleLine` when `term_width.saturating_sub(prompt_width) > min_whitespace`;
otherwise run the shrink loop at `ShrinkConfortable` and then at
`ShrinkBeyondMin`; classify `OverflowLine` when the result still exceeds the
terminal width, else `SplitLine`. -/
def layout_segments (segments : List Segment) (term_width min_whitespace fuel : Nat) :
    LayoutResult :=
  if min_whitespace < term_width - get_size (initLayout segments) then
    .ok .SingleLine (initLayout segments)
  else
    match shrinkLoop .ShrinkConfortable term_width fuel (initLayout segments) with
    | .panicked => .panicked
    | .outOfFuel => .outOfFuel
    | .done l1 =>
      match shrinkLoop .ShrinkBeyondMin term_width fuel l1 with
      | .panicked => .panicked
      | .outOfFuel => .outOfFuel
      | .done l2 =>
        if term_width < get_size l2 then .ok .OverflowLine l2
        else .ok .SplitLine l2

/-- From the unit tests of src/main.rs: `MIN_TEST_SEGMENT_SIZE`. -/
def MIN_TEST_SEGMENT_SIZE : Nat := 5

/-- From the unit tests of src/main.rs: `TestSegment` with a preferred width,
comfortable floor `MIN_TEST_SEGMENT_SIZE` and absolute floor 1; it snaps to
the requested width when that is at least the comfortable floor, else to 1. -/
def testSegment (width : Nat) : Segment where
  get_base_width := fun shrink =>
    match shrink with
    | .Unconstrained => width
    | .ShrinkConfortable => MIN_TEST_SEGMENT_SIZE
    | .ShrinkBeyondMin => 1
  get_actual_width_when_under := fun max_size =>
    if MIN_TEST_SEGMENT_SIZE ≤ max_size then max_size else 1

/-- From src/path.rs: the two ways a working directory is displayed. -/
inductive PathType where
  | RelativeToHome
  | RelativeToRoot
deriving DecidableEq

/-- Model of `std::path::PathBuf`: an absolute-path flag plus the list of
components; each component is a list of grapheme clusters (one `Char` per
cluster). -/
structure PathBuf where
  absolute : Bool
  components : List (List Char)
deriving DecidableEq

/-- From src/segments.rs and the construction site in src/main.rs: the
read-only run-time snapshot handed to every segment constructor. -/
structure Context where
  path : Option PathBuf
  pipestatus : Option (List Char)
  jobs : Nat

/-- Number of characters of `format!("{}", n)` for a `usize`. -/
def numDigits (n : Nat) : Nat := (Nat.toDigits 10 n).length

/-- From src/jobs.rs: segment showing the number of background jobs. -/
structure JobsSegment where
  jobs : Nat

/-- From src/jobs.rs `JobsSegment::new`: absent exactly when the job count is
zero. -/
def JobsSegment.new (context : Context) : Option JobsSegment :=
  if context.jobs = 0 then none else some ⟨context.jobs⟩

/-- From src/jobs.rs `get_unconstrained_size`: digits of the job count plus 4. -/
def JobsSegment.get_unconstrained_size (s : JobsSegment) : Nat :=
  numDigits s.jobs + 4

/-- From src/jobs.rs `get_base_width`. -/
def JobsSegment.get_base_width (s : JobsSegment) : ShrinkPriority → Nat
  | .Unconstrained => if s.jobs = 1 then 3 else s.get_unconstrained_size
  | .ShrinkConfortable => 3
  | .ShrinkBeyondMin => 0

/-- From src/jobs.rs `get_actual_width_when_under`. -/
def JobsSegment.get_actual_width_when_under (s : JobsSegment) (max_size : Nat) : Nat :=
  if s.get_unconstrained_size + 2 ≤ max_size then s.get_unconstrained_size + 2
  else if 3 ≤ max_size then 3
  else 0

/-- From src/jobs.rs `render_at_size`, as a list of grapheme clusters:
either " N ⚙ " (or " ⚙ " for a single job), the symbol-only " ⚙ ", or the
empty string. -/
def JobsSegment.render_at_size (s : JobsSegment) (max_size : Nat) : List Char :=
  if s.get_unconstrained_size ≤ max_size then
    if s.jobs = 1 then [' ', '⚙', ' ']
    else [' '] ++ Nat.toDigits 10 s.jobs ++ [' ', '⚙', ' ']
  else if 3 ≤ max_size then [' ', '⚙', ' ']
  else []

/-- From src/status.rs: exit status of one pipeline entry. -/
inductive ExitStatus where
  | Ok
  | Failed
deriving DecidableEq

/-- Rust `char::is_ascii_whitespace`: space, tab, newline, form feed,
carriage return. -/
def isAsciiWhitespace (c : Char) : Bool :=
  c = ' ' || c = '\t' || c = '\n' || c = '\x0c' || c = '\r'

def splitAWGo : List Char → List Char → List (List Char)
  | cur, [] => if cur.isEmpty then [] else [cur.reverse]
  | cur, c :: cs =>
    if isAsciiWhitespace c then
      if cur.isEmpty then splitAWGo [] cs else cur.reverse :: splitAWGo [] cs
    else splitAWGo (c :: cur) cs

/-- Model of Rust `str::split_ascii_whitespace`: maximal runs of
non-whitespace characters, in order. -/
def split_ascii_whitespace (s : List Char) : List (List Char) :=
  splitAWGo [] s

/-- From src/status.rs: segment showing the pipeline exit statuses. -/
structure StatusSegment where
  status : List ExitStatus

/-- From src/status.rs `StatusSegment::new`: absent when no pipestatus string
was supplied or every whitespace-separated entry is "0". -/
def StatusSegment.new (context : Context) : Option StatusSegment :=
  match context.pipestatus with
  | none => none
  | some statuses =>
    if (split_ascii_whitespace statuses).all (fun x => x == ['0']) then none
    else
      some ⟨(split_ascii_whitespace statuses).map
        (fun x => if x == ['0'] then ExitStatus.Ok else ExitStatus.Failed)⟩

/-- From src/status.rs `get_unconstrained_size`. -/
def StatusSegment.get_unconstrained_size (s : StatusSegment) : Nat :=
  s.status.length * 2 + 1

/-- From src/status.rs `get_base_width`. -/
def StatusSegment.get_base_width (s : StatusSegment) : ShrinkPriority → Nat
  | .Unconstrained => s.get_unconstrained_size
  | .ShrinkConfortable => 3
  | .ShrinkBeyondMin => 0

/-- From src/status.rs `get_actual_width_when_under`. -/
def StatusSegment.get_actual_width_when_under (s : StatusSegment) (max_size : Nat) : Nat :=
  if s.get_unconstrained_size ≤ max_size then s.get_unconstrained_size
  else if 3 ≤ max_size then 3
  else 0

/-- From src/path.rs: `MIN_PATH_SIZE`. -/
def MIN_PATH_SIZE : Nat := 6

/-- From src/path.rs `get_relative_path`: strip the home directory (relative
to home on success), else strip the root, else keep the path as is. -/
def get_relative_path (cwd home : PathBuf) : PathType × PathBuf :=
  if cwd.absolute = home.absolute ∧ home.components.isPrefixOf cwd.components then
    (.RelativeToHome, ⟨false, cwd.components.drop home.components.length⟩)
  else if cwd.absolute then
    (.RelativeToRoot, ⟨false, cwd.components⟩)
  else
    (.RelativeToRoot, cwd)

/-- From src/path.rs `get_path_relative_to_home`; the ambient
`std::env::home_dir()` is passed explicitly. -/
def get_path_relative_to_home (home : Option PathBuf) (cwd : PathBuf) :
    PathType × PathBuf :=
  match home with
  | some h => get_relative_path cwd h
  | none => (.RelativeToRoot, cwd)

/-- From src/path.rs `calculate_preferred_size`: every component costs its
grapheme count plus 3, plus 3 more. -/
def calculate_preferred_size (components : List (List Char)) : Nat :=
  (components.map (fun x => x.length + 3)).sum + 3

/-- From src/path.rs: segment showing the working directory. -/
structure PathSegment where
  path_segments : List (List Char)
  path_type : PathType
  preferred_width : Nat

/-- From src/path.rs `PathSegment::new_from_path`. -/
def PathSegment.new_from_path (path_type : PathType) (path_buf : PathBuf) : PathSegment :=
  ⟨path_buf.components, path_type, calculate_preferred_size path_buf.components⟩

/-- From src/path.rs `PathSegment::new`: absent exactly when the context has
no working directory. -/
def PathSegment.new (home : Option PathBuf) (context : Context) : Option PathSegment :=
  match context.path with
  | none => none
  | some cwd =>
    let r := get_path_relative_to_home home cwd
    some (PathSegment.new_from_path r.1 r.2)

/-- From src/path.rs `get_base_width`. -/
def PathSegment.get_base_width (s : PathSegment) : ShrinkPriority → Nat
  | .Unconstrained => s.preferred_width
  | .ShrinkConfortable => MIN_PATH_SIZE
  | .ShrinkBeyondMin => 1

/-- From src/path.rs `get_actual_width_when_under`. -/
def PathSegment.get_actual_width_when_under (s : PathSegment) (max_size : Nat) : Nat :=
  if s.preferred_width ≤ max_size then s.preferred_width
  else if MIN_PATH_SIZE ≤ max_size then max_size
  else 1

/-- From src/git.rs: which kinds of file changes are present. -/
structure FileChanges where
  staged : Bool
  unstaged : Bool
  conflicted : Bool
deriving DecidableEq

/-- From src/git.rs: overall repository status. -/
inductive GitStatus where
  | Clean
  | UntrackedFiles
  | Changes (c : FileChanges)
deriving DecidableEq

/-- From src/git.rs: in-progress repository operation. -/
inductive GitState where
  | Clean
  | Bisect
  | Rebase
  | Merge
  | Cherrypick
deriving DecidableEq

/-- From src/git.rs: `MIN_BRANCH_TEXT`. -/
def MIN_BRANCH_TEXT : Nat := 4

/-- From src/git.rs `calculate_status_size_len`. -/
def calculate_status_size_len (status : GitStatus) (mode : GitState) : Nat :=
  let status_symbol_len :=
    match status with
    | .Clean => 0
    | .UntrackedFiles => 0
    | .Changes c =>
      (if c.staged then 1 else 0) + (if c.unstaged then 1 else 0) +
        (if c.conflicted then 1 else 0)
  let mode_symol_len :=
    match mode with
    | .Clean => 0
    | .Bisect => 3
    | .Rebase => 3
    | .Merge => 3
    | .Cherrypick => 3
  match status_symbol_len, mode_symol_len with
  | 0, 0 => 0
  | x, 0 => x
  | 0, y => y
  | x, y => x + y + 1

/-- From src/git.rs: segment showing branch name and repository status; the
cached lengths are stored fields exactly as in the source. -/
structure GitSegment where
  status : GitStatus
  mode : GitState
  status_str_len : Nat
  branch_name : List Char
  branch_name_len : Nat

/-- From src/git.rs `get_unconstrained_total_len`. -/
def GitSegment.get_unconstrained_total_len (g : GitSegment) : Nat :=
  g.branch_name_len + 4 + (if g.status_str_len ≠ 0 then g.status_str_len + 1 else 0)

/-- From src/git.rs `get_min_len_with_branch_name`. -/
def GitSegment.get_min_len_with_branch_name (g : GitSegment) : Nat :=
  min g.branch_name_len (MIN_BRANCH_TEXT + 3) + 4 +
    (if g.status_str_len ≠ 0 then g.status_str_len + 1 else 0)

/-- From src/git.rs `get_base_width`. -/
def GitSegment.get_base_width (g : GitSegment) : ShrinkPriority → Nat
  | .Unconstrained => g.get_unconstrained_total_len
  | .ShrinkConfortable => g.get_min_len_with_branch_name
  | .ShrinkBeyondMin => 0

/-- From src/git.rs `get_actual_width_when_under`, including the duplicated
second comparison against `get_min_len_with_branch_name()` exactly as in the
source. -/
def GitSegment.get_actual_width_when_under (g : GitSegment) (max_size : Nat) : Nat :=
  if g.get_min_len_with_branch_name ≤ max_size then
    min max_size g.get_unconstrained_total_len
  else if g.get_min_len_with_branch_name ≤ max_size then
    max_size
  else if g.status_str_len ≠ 0 ∧ g.status_str_len + 4 ≤ max_size then
    g.status_str_len + 4
  else if 3 ≤ max_size then 3
  else 0

/-- Modelled from the spec: the actual-width computation of `GitSegment` with
the duplicated, unreachable conditional branch (the second comparison of
`max_size` against the comfortable-width threshold) removed — a single branch,
as the spec says the computation should be read. -/
def GitSegment.actual_width_single_branch (g : GitSegment) (max_size : Nat) : Nat :=
  if g.get_min_len_with_branch_name ≤ max_size then
    min max_size g.get_unconstrained_total_len
  else if g.status_str_len ≠ 0 ∧ g.status_str_len + 4 ≤ max_size then
    g.status_str_len + 4
  else if 3 ≤ max_size then 3
  else 0

/-- Behavioural precondition on a segment: when asked to render under a cap
that is at least the segment's floor at one of the two shrink tiers, the
segment reports a width no larger than the cap.  This is the spec's
"result ≤ cap when cap is at least the segment's floor" requirement,
instantiated at the floors the shrink loop actually uses. -/
def shrink_floor_ok (s : Segment) : Prop :=
  ∀ tier : ShrinkPriority,
    tier = .ShrinkConfortable ∨ tier = .ShrinkBeyondMin →
      ∀ cap : Nat, s.get_base_width tier ≤ cap → s.get_actual_width_when_under cap ≤ cap

/-- All segments appearing in a layout satisfy `shrink_floor_ok`. -/
def SegsOk (layout : Layout) : Prop :=
  ∀ p ∈ layout, shrink_floor_ok p.1

theorem get_size_cons (a : SegmentLayout) (t : Layout) :
    get_size (a :: t) = a.2 + 1 + get_size t := by
  simp [get_size]
  omega

theorem get_size_eq_sum (l : Layout) :
    get_size l = (l.map (fun p => p.2)).sum + l.length + 1 := by
  induction l with
  | nil => simp [get_size]
  | cons a t ih => rw [get_size_cons, ih]; simp; omega

theorem get_size_set (l : Layout) (i : Nat) (x sl : SegmentLayout)
    (h : l[i]? = some sl) :
    get_size (l.set i x) + sl.2 = get_size l + x.2 := by
  induction l generalizing i with
  | nil => simp at h
  | cons a t ih =>
    cases i with
    | zero =>
      simp at h
      subst h
      simp only [List.set]
      rw [get_size_cons, get_size_cons]
      omega
    | succ j =>
      simp at h
      have := ih j h
      simp only [List.set]
      rw [get_size_cons, get_size_cons]
      omega

theorem lastMax_eq_none_iff (l : List Nat) : lastMax l = none ↔ l = [] := by
  cases l with
  | nil => simp [lastMax]
  | cons x xs => simp [lastMax]

/-- Characterisation of `lastMax`: the returned index is in range, holds the
returned value, the value is maximal, and every element strictly after the
index is strictly smaller (so `lastMax` is the LAST maximum). -/
theorem lastMax_spec (l : List Nat) (i v : Nat) (h : lastMax l = some (i, v)) :
    i < l.length ∧ l[i]? = some v ∧
      (∀ (j x : Nat), l[j]? = some x → x ≤ v) ∧
      (∀ (j x : Nat), l[j]? = some x → i < j → x < v) := by
  induction l generalizing i v with
  | nil => simp [lastMax] at h
  | cons a t ih =>
    rw [lastMax] at h
    cases ht : lastMax t with
    | none =>
      rw [ht] at h
      have hte : t = [] := (lastMax_eq_none_iff t).1 ht
      subst hte
      replace h : some ((0 : Nat), a) = some (i, v) := h
      simp only [Option.some.injEq, Prod.mk.injEq] at h
      obtain ⟨rfl, rfl⟩ := h
      refine ⟨by simp, by simp, ?_, ?_⟩
      · intro j x hj
        cases j with
        | zero => simp at hj; omega
        | succ k => simp at hj
      · intro j x hj hij
        cases j with
        | zero => omega
        | succ k => simp at hj
    | some p =>
      obtain ⟨j0, v0⟩ := p
      rw [ht] at h
      replace h : some (if a ≤ v0 then (j0 + 1, v0) else ((0 : Nat), a)) = some (i, v) := h
      simp only [Option.some.injEq] at h
      obtain ⟨hlt, hget, hle, hlast⟩ := ih j0 v0 ht
      by_cases hx : a ≤ v0
      · rw [if_pos hx] at h
        simp only [Prod.mk.injEq] at h
        obtain ⟨rfl, rfl⟩ := h
        refine ⟨by simpa using hlt, by simpa using hget, ?_, ?_⟩
        · intro j x hj
          cases j with
          | zero => simp at hj; omega
          | succ k => simp at hj; exact hle k x hj
        · intro j x hj hij
          cases j with
          | zero => omega
          | succ k =>
            simp at hj
            exact hlast k x hj (by omega)
      · rw [if_neg hx] at h
        simp only [Prod.mk.injEq] at h
        obtain ⟨rfl, rfl⟩ := h
        refine ⟨by simp, by simp, ?_, ?_⟩
        · intro j x hj
          cases j with
          | zero => simp at hj; omega
          | succ k => simp at hj; have := hle k x hj; omega
        · intro j x hj hij
          cases j with
          | zero => omega
          | succ k => simp at hj; have := hle k x hj; omega

theorem shrink_step_lemma (tier : ShrinkPriority)
    (htier : tier = .ShrinkConfortable ∨ tier = .ShrinkBeyondMin)
    (term_width : Nat) (layout : Layout) (idx : Nat) (sl : SegmentLayout)
    (hok : SegsOk layout) (hsz : term_width < get_size layout)
    (hg : layout[idx]? = some sl)
    (hz : amount_can_shrink sl tier ≠ 0) :
    get_size (shrunk layout term_width idx sl tier) < get_size layout ∧
      SegsOk (shrunk layout term_width idx sl tier) := by
  have hmem : sl ∈ layout := List.getElem?_mem hg
  have hfl : shrink_floor_ok sl.1 := hok sl hmem
  have ha : amount_can_shrink sl tier = sl.2 - sl.1.get_base_width tier := rfl
  have hb : sl.1.get_base_width tier < sl.2 := by omega
  have hreq : sl.1.get_base_width tier ≤
      sl.2 - min (get_size layout - term_width) (amount_can_shrink sl tier) := by
    omega
  have hw : sl.1.get_actual_width_when_under
        (sl.2 - min (get_size layout - term_width) (amount_can_shrink sl tier)) ≤
      sl.2 - min (get_size layout - term_width) (amount_can_shrink sl tier) :=
    hfl tier htier _ hreq
  have hset := get_size_set layout idx
    (sl.1, sl.1.get_actual_width_when_under
      (sl.2 - min (get_size layout - term_width) (amount_can_shrink sl tier))) sl hg
  constructor
  · unfold shrunk
    simp only at hset
    omega
  · intro p hp
    rcases List.mem_or_eq_of_mem_set hp with hp' | rfl
    · exact hok p hp'
    · exact hfl

theorem shrinkLoop_not_fuelOut (tier : ShrinkPriority)
    (htier : tier = .ShrinkConfortable ∨ tier = .ShrinkBeyondMin) (term_width : Nat) :
    ∀ fuel layout, SegsOk layout → get_size layout ≤ term_width + fuel →
      shrinkLoop tier term_width fuel layout ≠ LoopOut.outOfFuel := by
  intro fuel
  induction fuel with
  | zero =>
    intro layout _ hle
    simp only [shrinkLoop]
    rw [if_pos (by omega)]
    simp
  | succ f ih =>
    intro layout hok hle
    simp only [shrinkLoop]
    split
    · simp
    · rename_i hsz
      split
      · simp
      · rename_i idx s heq
        split
        · simp
        · rename_i sl hg
          split
          · simp
          · rename_i hz
            have hst := shrink_step_lemma tier htier term_width layout idx sl hok
              (by omega) hg hz
            exact ih (shrunk layout term_width idx sl tier) hst.2 (by omega)

theorem shrinkLoop_done_le (tier : ShrinkPriority)
    (htier : tier = .ShrinkConfortable ∨ tier = .ShrinkBeyondMin) (term_width : Nat) :
    ∀ fuel layout l', SegsOk layout →
      shrinkLoop tier term_width fuel layout = LoopOut.done l' →
      get_size l' ≤ get_size layout ∧ SegsOk l' := by
  intro fuel
  induction fuel with
  | zero =>
    intro layout l' hok h
    simp only [shrinkLoop] at h
    split at h
    · cases h; exact ⟨Nat.le_refl _, hok⟩
    · cases h
  | succ f ih =>
    intro layout l' hok h
    simp only [shrinkLoop] at h
    split at h
    · cases h; exact ⟨Nat.le_refl _, hok⟩
    · rename_i hsz
      split at h
      · cases h
      · rename_i idx s heq
        split at h
        · cases h
        · rename_i sl hg
          split at h
          · cases h; exact ⟨Nat.le_refl _, hok⟩
          · rename_i hz
            have hst := shrink_step_lemma tier htier term_width layout idx sl hok
              (by omega) hg hz
            have := ih (shrunk layout term_width idx sl tier) l' hst.2 h
            exact ⟨by omega, this.2⟩

theorem shrinkLoop_ne_panicked (tier : ShrinkPriority) (term_width : Nat) :
    ∀ fuel layout, layout ≠ [] →
      shrinkLoop tier term_width fuel layout ≠ LoopOut.panicked := by
  intro fuel
  induction fuel with
  | zero =>
    intro layout hne
    simp only [shrinkLoop]
    split <;> simp
  | succ f ih =>
    intro layout hne
    simp only [shrinkLoop]
    split
    · simp
    · split
      · rename_i heq
        rw [lastMax_eq_none_iff] at heq
        simp at heq
        exact absurd heq hne
      · rename_i idx s heq
        have hlt : idx < layout.length := by
          have := (lastMax_spec _ idx s heq).1
          simpa using this
        split
        · rename_i hg
          rw [List.getElem?_eq_none_iff] at hg
          omega
        · rename_i sl hg
          split
          · simp
          · apply ih
            intro hcon
            have : (shrunk layout term_width idx sl tier).length = layout.length := by
              simp [shrunk]
            rw [hcon] at this
            simp at this
            omega

theorem shrinkLoop_done_length (tier : ShrinkPriority) (term_width : Nat) :
    ∀ fuel layout l', shrinkLoop tier term_width fuel layout = LoopOut.done l' →
      l'.length = layout.length := by
  intro fuel
  induction fuel with
  | zero =>
    intro layout l' h
    simp only [shrinkLoop] at h
    split at h
    · cases h; rfl
    · cases h
  | succ f ih =>
    intro layout l' h
    simp only [shrinkLoop] at h
    split at h
    · cases h; rfl
    · split at h
      · cases h
      · rename_i idx s heq
        split at h
        · cases h
        · rename_i sl hg
          split at h
          · cases h; rfl
          · have := ih (shrunk layout term_width idx sl tier) l' h
            simpa [shrunk] using this

/-- Sanity check replaying the unit test `layout_segments_one_line`. -/
theorem layout_test_one_line :
    layout_segments [testSegment 10] 20 5 60 = .ok .SingleLine [(testSegment 10, 10)] := rfl

/-- Sanity check replaying the unit test `layout_segments_split_line`. -/
theorem layout_test_split_line :
    layout_segments [testSegment 10] 20 10 60 = .ok .SplitLine [(testSegment 10, 10)] := rfl

/-- Sanity check replaying the unit test `layout_segments_shrink_comfortable`. -/
theorem layout_test_shrink_comfortable :
    layout_segments [testSegment 25] 20 10 60 = .ok .SplitLine [(testSegment 25, 18)] := rfl

/-- Sanity check replaying the unit test `layout_segments_shrink_small`. -/
theorem layout_test_shrink_small :
    layout_segments [testSegment 25] 6 10 60 = .ok .SplitLine [(testSegment 25, 1)] := rfl

/-- Sanity check replaying the unit test `layout_multiple_segments_shrink_one`. -/
theorem layout_test_shrink_one :
    layout_segments [testSegment 25, testSegment 30] 50 40 60 =
      .ok .SplitLine [(testSegment 25, 25), (testSegment 30, 22)] := rfl

/-- Sanity check replaying the unit test `layout_multiple_segments_shrink_both`. -/
theorem layout_test_shrink_both :
    layout_segments [testSegment 25, testSegment 30] 25 40 60 =
      .ok .SplitLine [(testSegment 25, 17), (testSegment 30, 5)] := rfl

/-- Sanity check replaying the unit test `layout_multiple_segments_shrink_one_small`. -/
theorem layout_test_shrink_one_small :
    layout_segments [testSegment 25, testSegment 30] 10 40 60 =
      .ok .SplitLine [(testSegment 25, 5), (testSegment 30, 1)] := rfl

/-- Sanity check replaying the unit test `layout_multiple_segments_overflow`. -/
theorem layout_test_overflow :
    layout_segments [testSegment 25, testSegment 30] 3 40 60 =
      .ok .OverflowLine [(testSegment 25, 1), (testSegment 30, 1)] := rfl

/-- C8: `GitSegment::get_actual_width_when_under` is extensionally equal to
the same function with its duplicate second conditional branch (the repeated
comparison of `max_size` against `get_min_len_with_branch_name()`) removed;
the duplicate branch is unreachable in every evaluation. -/
theorem C8_duplicate_branch_equiv (g : GitSegment) (max_size : Nat) :
    g.get_actual_width_when_under max_size = g.actual_width_single_branch max_size := by
  unfold GitSegment.get_actual_width_when_under GitSegment.actual_width_single_branch
  by_cases h : g.get_min_len_with_branch_name ≤ max_size
  · simp [h]
  · simp [h]

/-- C2 fails on the code: for `JobsSegment` with 3 jobs rendered at width 5,
`render_at_size` produces " 3 ⚙ " with 5 grapheme clusters, while
`get_actual_width_when_under 5` reports 3.  (The width query compares the cap
against `get_unconstrained_size() + 2`, the renderer against
`get_unconstrained_size()`; the invariant that is debug-asserted in
src/path.rs and src/git.rs is violated by src/jobs.rs.) -/
theorem C2_jobs_render_width_mismatch :
    (JobsSegment.render_at_size ⟨3⟩ 5).length = 5 ∧
      JobsSegment.get_actual_width_when_under ⟨3⟩ 5 = 3 :=
  ⟨rfl, rfl⟩

/-- C4 counterexample: for the `PathSegment` built from the empty relative
path (current directory equal to home) the preferred width is 3, strictly
below `MIN_PATH_SIZE = 6`, so `get_base_width` is NOT monotone from
`Unconstrained` to `ShrinkConfortable`. -/
theorem C4_base_width_counterexample :
    ¬ (PathSegment.new_from_path .RelativeToHome ⟨false, []⟩).get_base_width
        .ShrinkConfortable ≤
      (PathSegment.new_from_path .RelativeToHome ⟨false, []⟩).get_base_width
        .Unconstrained := by
  decide

/-- C4 amended: `get_base_width` is monotonically non-increasing in tier
severity for every `JobsSegment` and `GitSegment`; for every `StatusSegment`
with at least one recorded status (all constructible ones); and for every
`PathSegment` whose preferred width is at least `MIN_PATH_SIZE` — for the
empty relative path (preferred width 3 < 6) the Unconstrained ≥
ShrinkConfortable leg fails.  The ShrinkConfortable ≥ ShrinkBeyondMin leg
holds for every variant unconditionally. -/
theorem C4_base_width_amended :
    (∀ j : JobsSegment,
      j.get_base_width .ShrinkConfortable ≤ j.get_base_width .Unconstrained ∧
        j.get_base_width .ShrinkBeyondMin ≤ j.get_base_width .ShrinkConfortable) ∧
    (∀ s : StatusSegment, s.status ≠ [] →
      s.get_base_width .ShrinkConfortable ≤ s.get_base_width .Unconstrained) ∧
    (∀ s : StatusSegment,
      s.get_base_width .ShrinkBeyondMin ≤ s.get_base_width .ShrinkConfortable) ∧
    (∀ g : GitSegment,
      g.get_base_width .ShrinkConfortable ≤ g.get_base_width .Unconstrained ∧
        g.get_base_width .ShrinkBeyondMin ≤ g.get_base_width .ShrinkConfortable) ∧
    (∀ p : PathSegment, MIN_PATH_SIZE ≤ p.preferred_width →
      p.get_base_width .ShrinkConfortable ≤ p.get_base_width .Unconstrained) ∧
    (∀ p : PathSegment,
      p.get_base_width .ShrinkBeyondMin ≤ p.get_base_width .ShrinkConfortable) := by
  refine ⟨?_, ?_, ?_, ?_, ?_, ?_⟩
  · intro j
    simp only [JobsSegment.get_base_width, JobsSegment.get_unconstrained_size]
    constructor
    · split_ifs <;> omega
    · omega
  · intro s hne
    have : 0 < s.status.length := List.length_pos.mpr hne
    simp only [StatusSegment.get_base_width, StatusSegment.get_unconstrained_size]
    omega
  · intro s
    simp only [StatusSegment.get_base_width]
    omega
  · intro g
    simp only [GitSegment.get_base_width, GitSegment.get_min_len_with_branch_name,
      GitSegment.get_unconstrained_total_len, MIN_BRANCH_TEXT]
    constructor
    · split_ifs <;> omega
    · omega
  · intro p hp
    simp only [PathSegment.get_base_width]
    omega
  · intro p
    simp only [PathSegment.get_base_width, MIN_PATH_SIZE]
    omega

/-- Witness for C4 amended at concrete segments. -/
theorem C4_base_width_amended_witness :
    ((⟨3⟩ : JobsSegment).get_base_width .ShrinkConfortable ≤
      (⟨3⟩ : JobsSegment).get_base_width .Unconstrained) ∧
    ((⟨[ExitStatus.Failed]⟩ : StatusSegment).get_base_width .ShrinkConfortable ≤
      (⟨[ExitStatus.Failed]⟩ : StatusSegment).get_base_width .Unconstrained) ∧
    ((⟨[['a']], .RelativeToHome, 7⟩ : PathSegment).get_base_width .ShrinkConfortable ≤
      (⟨[['a']], .RelativeToHome, 7⟩ : PathSegment).get_base_width .Unconstrained) :=
  ⟨(C4_base_width_amended.1 ⟨3⟩).1,
   C4_base_width_amended.2.1 ⟨[ExitStatus.Failed]⟩ (by simp),
   C4_base_width_amended.2.2.2.2.1 ⟨[['a']], .RelativeToHome, 7⟩ (by decide)⟩

/-- C7: for every segment variant, `get_actual_width_when_under` is
monotonically non-decreasing in its cap argument. -/
theorem C7_actual_width_monotone (a b : Nat) (hab : a ≤ b) :
    (∀ p : PathSegment,
      p.get_actual_width_when_under a ≤ p.get_actual_width_when_under b) ∧
    (∀ g : GitSegment,
      g.get_actual_width_when_under a ≤ g.get_actual_width_when_under b) ∧
    (∀ j : JobsSegment,
      j.get_actual_width_when_under a ≤ j.get_actual_width_when_under b) ∧
    (∀ s : StatusSegment,
      s.get_actual_width_when_under a ≤ s.get_actual_width_when_under b) := by
  refine ⟨?_, ?_, ?_, ?_⟩
  · intro p
    unfold PathSegment.get_actual_width_when_under MIN_PATH_SIZE
    split_ifs <;> omega
  · intro g
    have h1 : g.get_min_len_with_branch_name ≤ g.get_unconstrained_total_len := by
      unfold GitSegment.get_min_len_with_branch_name GitSegment.get_unconstrained_total_len
        MIN_BRANCH_TEXT
      split_ifs <;> omega
    have h3 : 4 ≤ g.get_min_len_with_branch_name := by
      unfold GitSegment.get_min_len_with_branch_name MIN_BRANCH_TEXT
      split_ifs <;> omega
    by_cases hs : g.status_str_len = 0
    · unfold GitSegment.get_actual_width_when_under
      simp only [hs, ne_eq, not_true_eq_false, false_and, if_false]
      split_ifs <;> omega
    · have h2 : g.status_str_len + 4 < g.get_min_len_with_branch_name := by
        unfold GitSegment.get_min_len_with_branch_name MIN_BRANCH_TEXT
        rw [if_pos hs]
        omega
      unfold GitSegment.get_actual_width_when_under
      split_ifs <;> omega
  · intro j
    unfold JobsSegment.get_actual_width_when_under JobsSegment.get_unconstrained_size
    split_ifs <;> omega
  · intro s
    unfold StatusSegment.get_actual_width_when_under StatusSegment.get_unconstrained_size
    split_ifs <;> omega

/-- Witness for C7 at a concrete segment and caps. -/
theorem C7_actual_width_monotone_witness :
    (⟨[], .RelativeToHome, 3⟩ : PathSegment).get_actual_width_when_under 3 ≤
      (⟨[], .RelativeToHome, 3⟩ : PathSegment).get_actual_width_when_under 10 :=
  (C7_actual_width_monotone 3 10 (by decide)).1 ⟨[], .RelativeToHome, 3⟩

/-- C9: segment constructors signal unmet preconditions as absence, never as
an error: `JobsSegment::new` is `none` iff the job count is 0,
`StatusSegment::new` is `none` iff the pipestatus string is absent or every
whitespace-separated entry equals "0", and `PathSegment::new` is `none` iff
the context has no working directory. -/
theorem C9_constructors_none_iff (home : Option PathBuf) (context : Context) :
    (JobsSegment.new context = none ↔ context.jobs = 0) ∧
    (StatusSegment.new context = none ↔
      context.pipestatus = none ∨
        ∀ s : List Char, context.pipestatus = some s →
          ∀ e ∈ split_ascii_whitespace s, e = ['0']) ∧
    (PathSegment.new home context = none ↔ context.path = none) := by
  refine ⟨?_, ?_, ?_⟩
  · unfold JobsSegment.new
    split_ifs with h <;> simp [h]
  · cases hp : context.pipestatus with
    | none => simp [StatusSegment.new, hp]
    | some s =>
      simp only [StatusSegment.new, hp]
      constructor
      · intro hnone
        by_cases h : (split_ascii_whitespace s).all (fun x => x == ['0'])
        · right
          intro s' hs'
          injection hs' with hss
          subst hss
          intro e he
          have := List.all_eq_true.mp h e he
          simpa using this
        · rw [if_neg h] at hnone
          cases hnone
      · intro hall
        rcases hall with h | h
        · cases h
        · have hb : (split_ascii_whitespace s).all (fun x => x == ['0']) = true := by
            rw [List.all_eq_true]
            intro e he
            have := h s rfl e he
            simp [this]
          rw [if_pos hb]
  · cases hpth : context.path <;> simp [PathSegment.new, hpth]

/-- C1: whenever `layout_segments` classifies `SingleLine` or `SplitLine`,
the sum of the allocated per-segment widths plus one separator slot per
segment plus one is at most the terminal width. -/
theorem C1_fits_terminal (segments : List Segment)
    (term_width min_whitespace fuel : Nat) (line : Line) (l : Layout)
    (h : layout_segments segments term_width min_whitespace fuel = .ok line l)
    (hline : line = Line.SingleLine ∨ line = Line.SplitLine) :
    (l.map (fun p => p.2)).sum + (l.length + 1) ≤ term_width := by
  have key : get_size l ≤ term_width := by
    unfold layout_segments at h
    split at h
    · rename_i hc
      cases h
      omega
    · split at h
      · cases h
      · cases h
      · split at h
        · cases h
        · cases h
        · split at h
          · cases h
            rcases hline with h' | h' <;> cases h'
          · rename_i hov
            cases h
            omega
  rw [get_size_eq_sum] at key
  omega

/-- Witness for C1 on the single-line unit-test scenario. -/
theorem C1_fits_terminal_witness :
    (([(testSegment 10, 10)] : Layout).map (fun p => p.2)).sum +
      (([(testSegment 10, 10)] : Layout).length + 1) ≤ 20 :=
  C1_fits_terminal [testSegment 10] 20 5 60 Line.SingleLine
    [(testSegment 10, 10)] rfl (Or.inl rfl)

/-- C6: `layout_segments` returns `SingleLine` exactly when
`term_width - initial total width > min_whitespace` (with saturating
subtraction); in that case the result layout is the initial layout, every
segment at `get_base_width(Unconstrained)`, and no shrink step runs; when the
free space equals `min_whitespace` exactly the result is NOT `SingleLine`. -/
theorem C6_single_line_iff (segments : List Segment)
    (term_width min_whitespace fuel : Nat) :
    (min_whitespace < term_width - get_size (initLayout segments) →
      layout_segments segments term_width min_whitespace fuel =
        .ok .SingleLine (initLayout segments)) ∧
    (∀ l : Layout,
      layout_segments segments term_width min_whitespace fuel = .ok .SingleLine l →
        min_whitespace < term_width - get_size (initLayout segments) ∧
          l = initLayout segments) ∧
    (term_width - get_size (initLayout segments) = min_whitespace →
      ∀ l : Layout,
        layout_segments segments term_width min_whitespace fuel ≠
          .ok .SingleLine l) := by
  have key : ∀ l : Layout,
      layout_segments segments term_width min_whitespace fuel = .ok .SingleLine l →
        min_whitespace < term_width - get_size (initLayout segments) ∧
          l = initLayout segments := by
    intro l h
    unfold layout_segments at h
    split at h
    · rename_i hc
      cases h
      exact ⟨hc, rfl⟩
    · split at h
      · cases h
      · cases h
      · split at h
        · cases h
        · cases h
        · split at h
          · cases h
          · cases h
  refine ⟨?_, key, ?_⟩
  · intro hc
    unfold layout_segments
    rw [if_pos hc]
  · intro heq l h
    have := (key l h).1
    omega

/-- Witness for C6: the single-line unit-test scenario satisfies the headroom
condition and returns the initial layout. -/
theorem C6_single_line_iff_witness :
    layout_segments [testSegment 10] 20 5 60 =
      LayoutResult.ok Line.SingleLine (initLayout [testSegment 10]) :=
  (C6_single_line_iff [testSegment 10] 20 5 60).1 (by decide)

/-- C10: for every non-empty segment list the `max_by_key ... .unwrap()`
selection never panics, whatever the terminal width, headroom and fuel; for
the empty segment list at terminal width 0 the loop is entered (initial total
width 1 > 0), the selection fails and `layout_segments` panics. -/
theorem C10_selection_safety :
    (∀ (segments : List Segment) (term_width min_whitespace fuel : Nat),
      segments ≠ [] →
        layout_segments segments term_width min_whitespace fuel ≠
          LayoutResult.panicked) ∧
    (∀ min_whitespace fuel : Nat, 0 < fuel →
      layout_segments [] 0 min_whitespace fuel = LayoutResult.panicked) := by
  constructor
  · intro segments term_width min_whitespace fuel hne hcon
    have hinit : initLayout segments ≠ [] := by
      simp [initLayout, hne]
    unfold layout_segments at hcon
    split at hcon
    · cases hcon
    · split at hcon
      · rename_i h1
        exact shrinkLoop_ne_panicked _ _ _ _ hinit h1
      · cases hcon
      · rename_i l1 h1
        have hlen := shrinkLoop_done_length _ _ _ _ _ h1
        have hl1 : l1 ≠ [] := by
          intro hl
          rw [hl] at hlen
          simp [initLayout] at hlen
          exact hne (List.length_eq_zero.mp hlen.symm)
        split at hcon
        · rename_i h2
          exact shrinkLoop_ne_panicked _ _ _ _ hl1 h2
        · cases hcon
        · split at hcon <;> cases hcon
  · intro min_whitespace fuel hf
    obtain ⟨f, rfl⟩ : ∃ f, fuel = f + 1 := ⟨fuel - 1, by omega⟩
    unfold layout_segments
    rw [if_neg (by simp [initLayout, get_size])]
    rfl

/-- Witness for C10 at concrete inputs. -/
theorem C10_selection_safety_witness :
    layout_segments [testSegment 10] 0 0 1 ≠ LayoutResult.panicked ∧
      layout_segments [] 0 0 1 = LayoutResult.panicked :=
  ⟨C10_selection_safety.1 [testSegment 10] 0 0 1 (by simp),
   C10_selection_safety.2 0 1 (by decide)⟩

/-- C5: under the precondition that each segment answers
`get_actual_width_when_under cap ≤ cap` whenever the cap is at least the
segment's floor at the shrink tier in use, the shrink loop of
`layout_segments` terminates: every executed iteration strictly decreases the
total prompt width or exits the tier on zero slack
(`shrink_step_lemma` / `shrinkLoop_not_fuelOut`), so any fuel of at least the
initial total width is never exhausted. -/
theorem C5_shrink_terminates (segments : List Segment)
    (term_width min_whitespace fuel : Nat)
    (hfloor : ∀ s ∈ segments, shrink_floor_ok s)
    (hfuel : get_size (initLayout segments) ≤ fuel) :
    layout_segments segments term_width min_whitespace fuel ≠
      LayoutResult.outOfFuel := by
  intro hcon
  have hok : SegsOk (initLayout segments) := by
    intro p hp
    simp only [initLayout, List.mem_map] at hp
    obtain ⟨s, hs, rfl⟩ := hp
    exact hfloor s hs
  unfold layout_segments at hcon
  split at hcon
  · cases hcon
  · split at hcon
    · cases hcon
    · rename_i h1
      exact shrinkLoop_not_fuelOut _ (Or.inl rfl) _ _ _ hok (by omega) h1
    · rename_i l1 h1
      obtain ⟨hle1, hok1⟩ := shrinkLoop_done_le _ (Or.inl rfl) _ _ _ _ hok h1
      split at hcon
      · cases hcon
      · rename_i h2
        exact shrinkLoop_not_fuelOut _ (Or.inr rfl) _ _ _ hok1 (by omega) h2
      · split at hcon <;> cases hcon

theorem testSegment_floor_ok (w : Nat) : shrink_floor_ok (testSegment w) := by
  intro tier htier cap hcap
  rcases htier with rfl | rfl <;>
    simp only [testSegment, MIN_TEST_SEGMENT_SIZE] at hcap ⊢ <;>
    split_ifs <;> omega

/-- Witness for C5: the shrink-small unit-test scenario terminates with fuel
equal to a bound above the initial total width. -/
theorem C5_shrink_terminates_witness :
    layout_segments [testSegment 25] 6 10 30 ≠ LayoutResult.outOfFuel :=
  C5_shrink_terminates [testSegment 25] 6 10 30
    (by
      intro s hs
      simp only [List.mem_singleton] at hs
      subst hs
      exact testSegment_floor_ok 25)
    (by decide)

/-- C3 counterexample: two segments with equal maximal slack — the code
shrinks the SECOND one (`max_by_key` returns the last maximum), not the
earliest as the claim states: the run ends with widths (10, 9), and the
selection over the tied slack list [5, 5] returns index 1. -/
theorem C3_tie_break_counterexample :
    layout_segments [testSegment 10, testSegment 10] 22 0 60 =
        LayoutResult.ok Line.SplitLine [(testSegment 10, 10), (testSegment 10, 9)] ∧
      lastMax (([(testSegment 10, 10), (testSegment 10, 10)] : Layout).map
        (fun sl => amount_can_shrink sl ShrinkPriority.ShrinkConfortable)) =
        some (1, 5) :=
  ⟨rfl, rfl⟩

/-- C3 amended: in every iteration the shrink loop of `layout_segments`
selects (via `lastMax`, the model of `max_by_key`) a segment whose slack at
the current tier is maximal; when several segments have equal maximal slack,
the LATEST segment in declaration order is selected (every strictly later
segment has strictly smaller slack). -/
theorem C3_selection_amended (layout : Layout) (tier : ShrinkPriority) (i s : Nat)
    (h : lastMax (layout.map (fun sl => amount_can_shrink sl tier)) = some (i, s)) :
    i < layout.length ∧
      (∀ sl : SegmentLayout, layout[i]? = some sl →
        amount_can_shrink sl tier = s) ∧
      (∀ (j : Nat) (sl : SegmentLayout), layout[j]? = some sl →
        amount_can_shrink sl tier ≤ s) ∧
      (∀ (j : Nat) (sl : SegmentLayout), layout[j]? = some sl → i < j →
        amount_can_shrink sl tier < s) := by
  obtain ⟨h1, h2, h3, h4⟩ :=
    lastMax_spec (layout.map (fun sl => amount_can_shrink sl tier)) i s h
  refine ⟨by simpa using h1, ?_, ?_, ?_⟩
  · intro sl hsl
    have hmap : (layout.map (fun sl => amount_can_shrink sl tier))[i]? =
        some (amount_can_shrink sl tier) := by
      rw [List.getElem?_map, hsl]
      rfl
    rw [hmap] at h2
    injection h2
  · intro j sl hj
    exact h3 j _ (by rw [List.getElem?_map, hj]; rfl)
  · intro j sl hj hij
    exact h4 j _ (by rw [List.getElem?_map, hj]; rfl) hij

/-- Witness for C3 amended: on a concrete two-segment layout the selected
index 1 indeed holds the maximal slack 7. -/
theorem C3_selection_amended_witness :
    amount_can_shrink (testSegment 12, 12) ShrinkPriority.ShrinkConfortable = 7 :=
  (C3_selection_amended [(testSegment 10, 10), (testSegment 12, 12)]
      ShrinkPriority.ShrinkConfortable 1 7 rfl).2.1 (testSegment 12, 12) rfl

end Rps
